import Mathlib

/-!
Verification of the fort-entry parsing core (`src/parser.py`, `src/config.py`)
of the `forts_scraper` repository.

The Python source is shallowly embedded: strings are `String`/`List Char`,
Python `re` patterns are embedded via a small backtracking matcher with
Python `re` semantics (leftmost match, greedy/lazy quantifiers, group
captures), machine-independent integers are `Int`, and fallible functions
return `Option`.  Character classes `\d`, `\s`, `[a-z]` are modelled at
ASCII scope, which covers the corpus this scraper processes.
-/

namespace FortsScraper

/-! ### Python string primitives -/

/-- ASCII scope of Python's `str.strip()` / regex `\s` whitespace class. -/
def pySpace (c : Char) : Bool :=
  c == ' ' || c == '\t' || c == '\n' || c == '\r' || c == '\x0b' || c == '\x0c'

/-- Characters removed by `dates_raw.strip("() ")` in `parse_date_ranges`. -/
def parenStripChar (c : Char) : Bool :=
  c == '(' || c == ')' || c == ' '

/-- Python `str.strip(chars)`: drop characters satisfying `p` from both ends. -/
def pyStripL (p : Char → Bool) (l : List Char) : List Char :=
  ((l.dropWhile p).reverse.dropWhile p).reverse

/-- Python `str.strip()` on `String`s (default whitespace stripping). -/
def pyStripWs (s : String) : String :=
  ⟨pyStripL pySpace s.data⟩

/-- Python `str.lower()` (ASCII scope). -/
def pyLower (s : String) : String :=
  ⟨s.data.map Char.toLower⟩

/-- Python `part.split(",")` (single-character separator). -/
def splitComma (l : List Char) : List (List Char) :=
  match l with
  | [] => [[]]
  | c :: rest =>
    let r := splitComma rest
    if c == ',' then [] :: r
    else
      match r with
      | [] => [[c]]
      | h :: t => (c :: h) :: t

/-- Python slicing `s[:n]` (by code points). -/
def pyTake (n : Nat) (s : String) : String :=
  ⟨s.data.take n⟩

/-- Whether `pat` is a prefix of `l` (case-sensitive). -/
def isPrefixL (pat : List Char) (l : List Char) : Bool :=
  match pat, l with
  | [], _ => true
  | _ :: _, [] => false
  | p :: ps, c :: cs => p == c && isPrefixL ps cs

/-- Whether `pat` is a prefix of `l`, comparing case-insensitively. -/
def isPrefixCI (pat : List Char) (l : List Char) : Bool :=
  match pat, l with
  | [], _ => true
  | _ :: _, [] => false
  | p :: ps, c :: cs => p.toLower == c.toLower && isPrefixCI ps cs

/-- Python substring test `sub in s` on character lists. -/
def containsSubL (sub : List Char) (l : List Char) : Bool :=
  match l with
  | [] => isPrefixL sub []
  | _ :: rest => isPrefixL sub l || containsSubL sub rest

/-- Python substring test `sub in s` on `String`s. -/
def containsStr (s sub : String) : Bool :=
  containsSubL sub.data s.data

/-- Python `s.find(sub)`: index of the first occurrence of `sub`, if any. -/
def findSubIdx (sub : List Char) (l : List Char) : Option Nat :=
  match l with
  | [] => if isPrefixL sub [] then some 0 else none
  | _ :: rest =>
    if isPrefixL sub l then some 0
    else (findSubIdx sub rest).map (· + 1)

/-! ### A backtracking regex matcher with Python `re` semantics

Patterns used by `src/parser.py` are built from single-character classes,
concatenation, alternation, greedy/lazy star over a character class, an
optional (greedy `?`) subpattern, capture groups, and `$`.  Greedy
quantifiers try the longest extent first and backtrack; lazy quantifiers try
the shortest first.  `$` (no `MULTILINE`) matches at the end of input or
just before a final newline. -/

/-- Capture environment: group index to captured character span, most
recent first. -/
def Caps := List (Nat × List Char)
deriving DecidableEq

/-- Environment with no group captured yet. -/
def capsEmpty : Caps := []

/-- Record group `i` as having captured `v`. -/
def capsSet (c : Caps) (i : Nat) (v : List Char) : Caps :=
  (i, v) :: c

/-- Python `match.group(i)`: the captured span of group `i`, if it
participated in the match. -/
def capGet (c : Caps) (i : Nat) : Option (List Char) :=
  (c.find? (fun e => e.1 == i)).map (·.2)

/-- Regex abstract syntax, specialised to the constructs `src/parser.py` uses. -/
inductive Rx where
  | eps
  | ch (p : Char → Bool)
  | cat (a b : Rx)
  | alt (a b : Rx)
  | starG (p : Char → Bool)
  | starL (p : Char → Bool)
  | optG (a : Rx)
  | grp (i : Nat) (a : Rx)
  | eol

/-- Greedy star over a character class: consume as many `p`-characters as
possible, then backtrack one at a time into the continuation `k`. -/
def starGrun (p : Char → Bool) (k : List Char → Caps → Option (List Char × Caps)) :
    List Char → Caps → Option (List Char × Caps)
  | [], c => k [] c
  | a :: rest, c =>
    if p a then
      match starGrun p k rest c with
      | some r => some r
      | none => k (a :: rest) c
    else k (a :: rest) c

/-- Lazy star over a character class: try the continuation first, consuming a
`p`-character only on failure. -/
def starLrun (p : Char → Bool) (k : List Char → Caps → Option (List Char × Caps)) :
    List Char → Caps → Option (List Char × Caps)
  | [], c => k [] c
  | a :: rest, c =>
    match k (a :: rest) c with
    | some r => some r
    | none => if p a then starLrun p k rest c else none

/-- Continuation-passing matcher.  `mrun r s k c` matches `r` against a prefix
of `s` and hands the rest and updated captures to `k`, backtracking through
all alternatives Python's engine would try, in the same order. -/
def mrun : Rx → List Char → (List Char → Caps → Option (List Char × Caps)) → Caps →
    Option (List Char × Caps)
  | .eps, s, k, c => k s c
  | .ch p, s, k, c =>
    match s with
    | [] => none
    | a :: rest => if p a then k rest c else none
  | .cat a b, s, k, c => mrun a s (fun s2 c2 => mrun b s2 k c2) c
  | .alt a b, s, k, c =>
    match mrun a s k c with
    | some r => some r
    | none => mrun b s k c
  | .starG p, s, k, c => starGrun p k s c
  | .starL p, s, k, c => starLrun p k s c
  | .optG a, s, k, c =>
    match mrun a s k c with
    | some r => some r
    | none => k s c
  | .grp i a, s, k, c =>
    mrun a s (fun s2 c2 => k s2 (capsSet c2 i (s.take (s.length - s2.length)))) c
  | .eol, s, k, c => if s == [] || s == ['\n'] then k s c else none

/-- Python `re.match(r, s)`: anchored at the start; returns captures on success. -/
def pyMatch (r : Rx) (s : String) : Option Caps :=
  (mrun r s.data (fun rem c => some (rem, c)) capsEmpty).map (·.2)

/-- One scanning step of `re.finditer`: captures of every non-overlapping
match, scanning left to right (fuelled by the input length). -/
def findAllAux (r : Rx) : Nat → List Char → List Caps
  | 0, _ => []
  | fuel + 1, s =>
    match mrun r s (fun rem c => some (rem, c)) capsEmpty with
    | some (rem, c) =>
      if rem.length < s.length then c :: findAllAux r fuel rem
      else [c]
    | none =>
      match s with
      | [] => []
      | _ :: rest => findAllAux r fuel rest

/-- Python `re.finditer(r, s)`: capture environments of all matches. -/
def findAll (r : Rx) (s : List Char) : List Caps :=
  findAllAux r (s.length + 1) s

/-- One scanning step of `re.sub` (fuelled by the input length). -/
def subAllAux (r : Rx) (repl : List Char) : Nat → List Char → List Char
  | 0, s => s
  | fuel + 1, s =>
    match mrun r s (fun rem c => some (rem, c)) capsEmpty with
    | some (rem, _) =>
      if rem.length < s.length then repl ++ subAllAux r repl fuel rem
      else s
    | none =>
      match s with
      | [] => []
      | a :: rest => a :: subAllAux r repl fuel rest

/-- Python `re.sub(r, repl, s)` for the constant replacements the source uses. -/
def subAllStr (r : Rx) (repl : String) (s : String) : String :=
  ⟨subAllAux r repl.data (s.data.length + 1) s.data⟩

/-- Single case-sensitive literal character. -/
def chE (c : Char) : Rx := .ch (fun x => x == c)

/-- Single literal character under `re.IGNORECASE`. -/
def chI (c : Char) : Rx := .ch (fun x => x.toLower == c.toLower)

/-- Concatenation of a pattern list. -/
def rxCats (l : List Rx) : Rx := l.foldr .cat .eps

/-- Case-sensitive literal string. -/
def litE (s : String) : Rx := rxCats (s.data.map chE)

/-- Literal string under `re.IGNORECASE`. -/
def litI (s : String) : Rx := rxCats (s.data.map chI)

/-- Alternation `(?:a|b|...)` of a non-empty pattern list. -/
def rxAlts (l : List Rx) : Rx :=
  match l with
  | [] => .ch (fun _ => false)
  | [r] => r
  | r :: rest => .alt r (rxAlts rest)

/-- Greedy `p+` over a character class. -/
def plusGreedy (p : Char → Bool) : Rx := .cat (.ch p) (.starG p)

/-- Lazy `p+?` over a character class. -/
def plusLazy (p : Char → Bool) : Rx := .cat (.ch p) (.starL p)

/-- Greedy `\s*`. -/
def wsStar : Rx := .starG pySpace

/-! ### Data model (`FortEntry` dataclass and period dicts, `src/parser.py` 11-24) -/

/-- One dated period of a fort, as built by `parse_date_ranges`.  Python uses a
dict whose `start_year`/`end_year`/`period_notes` keys may be absent or
`None`; both states are modelled as `none`. -/
structure Period where
  start_year : Option Int := none
  end_year : Option Int := none
  period_notes : Option String := none
  period_order : Nat
deriving DecidableEq, Repr

/-- The `FortEntry` dataclass of `src/parser.py`. -/
structure FortEntry where
  name_primary : String
  dates_raw : String := ""
  location_text : String := ""
  description_raw : String := ""
  entry_raw : String := ""
  alt_names : List String := []
  nationalities : List String := []
  periods : List Period := []
  earliest_year : Option Int := none
  latest_year : Option Int := none
deriving DecidableEq, Repr

/-! ### Nationality extraction (`src/config.py` 80-91, `src/parser.py` 27-37) -/

/-- The `FLAG_NATIONALITY` dict of `src/config.py`. -/
def FLAG_NATIONALITY : String → Option String
  | "usaflag" => some "United States"
  | "usaflag1" => some "United States (Colonial/Revolutionary)"
  | "britishflag" => some "Great Britain"
  | "frenchflag" => some "France"
  | "spanishflag" => some "Spain"
  | "mexicanflag" => some "Mexico"
  | "confederateflag" => some "Confederate States"
  | "russianflag" => some "Russia"
  | "dutchflag" => some "Netherlands"
  | "swedishflag" => some "Sweden"
  | _ => none

/-- The nation labels occurring as values of `FLAG_NATIONALITY`. -/
def nationalityValues : List String :=
  ["United States", "United States (Colonial/Revolutionary)", "Great Britain",
   "France", "Spain", "Mexico", "Confederate States", "Russia", "Netherlands",
   "Sweden"]

/-- Flag-image pattern `([a-z]+flag\d*)\.gif` compiled with `re.IGNORECASE`. -/
def flagRx : Rx :=
  rxCats [.grp 1 (rxCats [plusGreedy Char.isAlpha, litI "flag", .starG Char.isDigit]),
          chE '.', litI "gif"]

/-- Loop body of `extract_nationalities` for one flag-pattern match
(`src/parser.py` 33-36): lower-case the token, look it up, and append the
nation if it is new. -/
def natStep (acc : List String) (caps : Caps) : List String :=
  match capGet caps 1 with
  | none => acc
  | some chars =>
    match FLAG_NATIONALITY (pyLower ⟨chars⟩) with
    | some nationality => if nationality ∈ acc then acc else acc ++ [nationality]
    | none => acc

/-- The `extract_nationalities` function (`src/parser.py` 27-37). -/
def extract_nationalities (html_fragment : String) : List String :=
  (findAll flagRx html_fragment.data).foldl natStep []

/-! ### Date segment classification (`src/parser.py` 40-144)

Each `re.match` call in `parse_date_ranges` is a prefix matcher built from
`\d{4}`, `\s*`, fixed characters and literals; in each of them every greedy
quantifier is followed by a character it can never consume, so the prefix
matchers below are exact renderings of the Python patterns. -/

/-- Numeric value of a digit character. -/
def digitVal (c : Char) : Int := (c.toNat : Int) - 48

/-- Match `\d{4}` at the front, returning its value and the rest. -/
def take4Digits : List Char → Option (Int × List Char)
  | a :: b :: c :: d :: rest =>
    if a.isDigit && b.isDigit && c.isDigit && d.isDigit then
      some (digitVal a * 1000 + digitVal b * 100 + digitVal c * 10 + digitVal d, rest)
    else none
  | _ => none

/-- Match a maximal `\d+` run at the front. -/
def takeDigits : List Char → List Char × List Char
  | [] => ([], [])
  | c :: rest =>
    if c.isDigit then
      let (ds, r) := takeDigits rest
      (c :: ds, r)
    else ([], c :: rest)

/-- Python `int()` of a digit string. -/
def digitsToInt (ds : List Char) : Int :=
  ds.foldl (fun acc c => acc * 10 + digitVal c) 0

/-- Drop a maximal `\s*` run. -/
def dropSpacesL (l : List Char) : List Char := l.dropWhile pySpace

/-- Membership in the `[-–]` class. -/
def isDashC (c : Char) : Bool := c == '-' || c == '–'

/-- Prefix match of `(\d{4})\s*[-–]\s*(\d{4})` (`src/parser.py` 71). -/
def matchRange (l : List Char) : Option (Int × Int) :=
  match take4Digits l with
  | none => none
  | some (y1, r1) =>
    match dropSpacesL r1 with
    | [] => none
    | c :: r2 =>
      if isDashC c then (take4Digits (dropSpacesL r2)).map (fun p => (y1, p.1))
      else none

/-- Prefix match of `(\d{4})\s*[-–]\s*unknown` with `re.IGNORECASE`
(`src/parser.py` 82). -/
def matchUnknownEnd (l : List Char) : Option Int :=
  match take4Digits l with
  | none => none
  | some (y1, r1) =>
    match dropSpacesL r1 with
    | [] => none
    | c :: r2 =>
      if isDashC c && isPrefixCI "unknown".data (dropSpacesL r2) then some y1
      else none

/-- Prefix match of `(\d{4})/(\d{4})` (`src/parser.py` 92). -/
def matchSlash (l : List Char) : Option (Int × Int) :=
  match take4Digits l with
  | none => none
  | some (y1, r1) =>
    match r1 with
    | '/' :: r2 => (take4Digits r2).map (fun p => (y1, p.1))
    | _ => none

/-- Prefix match of `(\d{4})` (`src/parser.py` 105). -/
def matchSingle (l : List Char) : Option Int :=
  (take4Digits l).map (·.1)

/-- Prefix match of `c(?:a)?\.?\s*(\d{4})` with `re.IGNORECASE`
(`src/parser.py` 115). -/
def matchCirca (l : List Char) : Option Int :=
  match l with
  | c :: r1 =>
    if c.toLower == 'c' then
      let r2 := match r1 with
        | a :: r => if a.toLower == 'a' then r else r1
        | [] => r1
      let r3 := match r2 with
        | '.' :: r => r
        | _ => r2
      (take4Digits (dropSpacesL r3)).map (·.1)
    else none
  | [] => none

/-- Prefix match of `(\d+)(?:st|nd|rd|th)\s+century` with `re.IGNORECASE`
(`src/parser.py` 125). -/
def matchCentury (l : List Char) : Option Int :=
  match takeDigits l with
  | ([], _) => none
  | (ds, r1) =>
    match r1 with
    | a :: b :: r2 =>
      let suf := [a.toLower, b.toLower]
      if (suf == ['s', 't'] || suf == ['n', 'd'] || suf == ['r', 'd'] || suf == ['t', 'h']) then
        match r2 with
        | w :: r3 =>
          if pySpace w && isPrefixCI "century".data (dropSpacesL r3) then
            some (digitsToInt ds)
          else none
        | [] => none
      else none
    | _ => none

/-- Classify one non-empty comma-separated segment, mirroring the rule cascade
in the body of the `for i, part in enumerate(parts)` loop (`src/parser.py`
64-139).  Returns the period (with `period_order = i`) and the years the
segment adds to `all_years`. -/
def classifyPart (i : Nat) (part : List Char) : Period × List Int :=
  match matchRange part with
  | some (s, e) =>
    ({ start_year := some s, end_year := some e, period_order := i }, [s, e])
  | none =>
  match matchUnknownEnd part with
  | some s =>
    ({ start_year := some s, end_year := none, period_order := i }, [s])
  | none =>
  match matchSlash part with
  | some (y1, y2) =>
    ({ start_year := none, end_year := some y2,
       period_notes := some ("Ambiguous: " ++ toString y1 ++ "/" ++ toString y2),
       period_order := i }, [y1, y2])
  | none =>
  match matchSingle part with
  | some y =>
    ({ start_year := some y, end_year := none, period_order := i }, [y])
  | none =>
  match matchCirca part with
  | some y =>
    ({ start_year := some y, period_notes := some "Approximate date",
       period_order := i }, [y])
  | none =>
  match matchCentury part with
  | some c =>
    ({ start_year := some ((c - 1) * 100), end_year := some (c * 100 - 1),
       period_notes := some (toString c ++ "th century"), period_order := i },
     [(c - 1) * 100, c * 100 - 1])
  | none =>
    ({ period_notes := some ("Unparsed: " ++ (⟨part⟩ : String)), period_order := i }, [])

/-- Python `min(all_years)` guarded by emptiness. -/
def listMin : List Int → Option Int
  | [] => none
  | a :: as =>
    match listMin as with
    | none => some a
    | some m => some (min a m)

/-- Python `max(all_years)` guarded by emptiness. -/
def listMax : List Int → Option Int
  | [] => none
  | a :: as =>
    match listMax as with
    | none => some a
    | some m => some (max a m)

/-- The stripped comma-separated segments `parse_date_ranges` iterates over
(`src/parser.py` 57-62); empty when the cleaned string is empty (the early
return at line 58). -/
def partsOf (dates_raw : String) : List (List Char) :=
  let cleaned := pyStripL parenStripChar dates_raw.data
  if cleaned = [] then []
  else (splitComma cleaned).map (pyStripL pySpace)

/-- The period list the enumerate loop accumulates, with `n` the enumerate
index of the first segment: empty segments are skipped (`if not part:
continue`), every other segment appends exactly one period. -/
def buildPeriods (n : Nat) : List (List Char) → List Period
  | [] => []
  | p :: rest =>
    (if p = [] then [] else [(classifyPart n p).1]) ++ buildPeriods (n + 1) rest

/-- The `all_years` list the enumerate loop accumulates. -/
def buildYears : List (List Char) → List Int
  | [] => []
  | p :: rest =>
    (if p = [] then [] else (classifyPart 0 p).2) ++ buildYears rest

/-- The `parse_date_ranges` function (`src/parser.py` 40-144). -/
def parse_date_ranges (dates_raw : String) :
    List Period × Option Int × Option Int :=
  let parts := partsOf dates_raw
  let all_years := buildYears parts
  (buildPeriods 0 parts, listMin all_years, listMax all_years)

/-! ### Alternate-name extraction (`src/parser.py` 147-167) -/

/-- Pattern
`(?:first |originally |also |formerly |later |previously )?(?:known|called|named|designated) as \*\*([^*]+)\*\*`
compiled with `re.IGNORECASE`. -/
def altPhraseRx1 : Rx :=
  rxCats [.optG (rxAlts [litI "first ", litI "originally ", litI "also ",
                         litI "formerly ", litI "later ", litI "previously "]),
          rxAlts [litI "known", litI "called", litI "named", litI "designated"],
          litI " as ", chE '*', chE '*',
          .grp 1 (plusGreedy (fun c => !(c == '*'))),
          chE '*', chE '*']

/-- Pattern `(?:renamed|changed to) \*\*([^*]+)\*\*` with `re.IGNORECASE`. -/
def altPhraseRx2 : Rx :=
  rxCats [rxAlts [litI "renamed", litI "changed to"],
          chE ' ', chE '*', chE '*',
          .grp 1 (plusGreedy (fun c => !(c == '*'))),
          chE '*', chE '*']

/-- Bare-emphasis pattern `\*\*([^*]+)\*\*` — the last element of `patterns`,
which the loop `for pattern in patterns[:-1]` never reaches. -/
def altBareRx : Rx :=
  rxCats [chE '*', chE '*', .grp 1 (plusGreedy (fun c => !(c == '*'))), chE '*', chE '*']

/-- The stopword filter `any(x in name.lower() for x in [...])`
(`src/parser.py` 164): substring containment, not a prefix test. -/
def stopwordHit (name : String) : Bool :=
  ["the ", "a ", "an ", "this ", "that "].any (fun x => containsStr (pyLower name) x)

/-- Accumulate one regex match into `alt_names` (`src/parser.py` 160-165). -/
def altNameStep (acc : List String) (caps : Caps) : List String :=
  match capGet caps 1 with
  | none => acc
  | some chars =>
    let name := pyStripWs ⟨chars⟩
    if name ≠ "" ∧ name ∉ acc ∧ stopwordHit name = false then acc ++ [name]
    else acc

/-- The `extract_alt_names` function (`src/parser.py` 147-167).  The slice
`patterns[:-1]` iterates only the two phrase-anchored patterns; `altBareRx`
is defined but never applied. -/
def extract_alt_names (description : String) : List String :=
  (findAll altPhraseRx1 description.data ++ findAll altPhraseRx2 description.data).foldl
    altNameStep []

/-! ### Fort-type classification (`src/parser.py` 170-194) -/

/-- The ordered `type_keywords` table (`src/parser.py` 174-187). -/
def type_keywords : List (String × List String) :=
  [("battery", ["battery", "batteries"]),
   ("redoubt", ["redoubt"]),
   ("blockhouse", ["blockhouse", "block house", "block-house"]),
   ("stockade", ["stockade", "palisade"]),
   ("camp", ["camp "]),
   ("cantonment", ["cantonment"]),
   ("barracks", ["barracks"]),
   ("arsenal", ["arsenal"]),
   ("trading post", ["trading post", "fur trading", "trading house"]),
   ("garrison", ["garrison house", "garrison"]),
   ("powder house", ["powder house", "magazine"]),
   ("fort", ["fort "])]

/-- The `detect_fort_type` function (`src/parser.py` 170-194): first matching
row wins, defaulting to `"fort"`. -/
def detect_fort_type (name description : String) : String :=
  let text := pyLower (name ++ " " ++ description)
  match type_keywords.findSome?
      (fun tk => if tk.2.any (fun kw => containsStr text kw) then some tk.1 else none) with
  | some t => t
  | none => "fort"

/-! ### Entry segmentation (`src/parser.py` 197-291) -/

/-- Pattern 1: `^(.+?)\s*\(([^)]+)\)\s*,\s*([^–-]+?)(?:\s*[-–]\s*(.*))?$`
with `re.DOTALL`. -/
def entryPat1 : Rx :=
  rxCats [.grp 1 (plusLazy (fun _ => true)),
          wsStar, chE '(',
          .grp 2 (plusGreedy (fun c => !(c == ')'))),
          chE ')', wsStar, chE ',', wsStar,
          .grp 3 (plusLazy (fun c => !(c == '-') && !(c == '–'))),
          .optG (rxCats [wsStar, .ch isDashC, wsStar, .grp 4 (.starG (fun _ => true))]),
          .eol]

/-- Pattern 2: `^(.+?)\s*\(([^)]+)\)\s*,\s*(.+)$` with `re.DOTALL`. -/
def entryPat2 : Rx :=
  rxCats [.grp 1 (plusLazy (fun _ => true)),
          wsStar, chE '(',
          .grp 2 (plusGreedy (fun c => !(c == ')'))),
          chE ')', wsStar, chE ',', wsStar,
          .grp 3 (plusGreedy (fun _ => true)),
          .eol]

/-- Pattern 3: `^(.+?)\s*\(([^)]+)\)\s*(.*)$` with `re.DOTALL`. -/
def entryPat3 : Rx :=
  rxCats [.grp 1 (plusLazy (fun _ => true)),
          wsStar, chE '(',
          .grp 2 (plusGreedy (fun c => !(c == ')'))),
          chE ')', wsStar,
          .grp 3 (.starG (fun _ => true)),
          .eol]

/-- Whitespace normalisation `re.sub(r"\s+", " ", text)` (`src/parser.py` 214). -/
def collapseWs (s : String) : String :=
  subAllStr (plusGreedy pySpace) " " s

/-- Bracket-annotation removal pattern `\s*\[.*?\]\s*` (`src/parser.py` 262);
without `re.DOTALL` the `.` excludes newlines. -/
def bracketRx : Rx :=
  rxCats [wsStar, chE '[', .starL (fun c => !(c == '\n')), chE ']', wsStar]

/-- Emphasis-marker removal pattern `\s*\*+\s*` (`src/parser.py` 263). -/
def asteriskRx : Rx :=
  rxCats [wsStar, plusGreedy (fun c => c == '*'), wsStar]

/-- Name cleanup (`src/parser.py` 262-264). -/
def cleanName (name_raw : String) : String :=
  pyStripWs (subAllStr asteriskRx "" (subAllStr bracketRx "" name_raw))

/-- The sentence split `re.split(r"(?<=[.!?])\s+", rest, maxsplit=1)`
(`src/parser.py` 243): split at the first whitespace run preceded by
sentence-ending punctuation. -/
def sentSplitAux : List Char → Option (List Char × List Char)
  | [] => none
  | a :: rest =>
    if (a == '.' || a == '!' || a == '?') &&
        (match rest with | b :: _ => pySpace b | [] => false) then
      some ([a], dropSpacesL rest)
    else (sentSplitAux rest).map (fun pr => (a :: pr.1, pr.2))

/-- Location/description separation of pattern-2 matches
(`src/parser.py` 241-245). -/
def sentSplit (rest : String) : String × String :=
  match sentSplitAux rest.data with
  | some (pre, post) => (⟨pre⟩, ⟨post⟩)
  | none => (rest, "")

/-- Captured group `i` as a string (groups 1-3 always participate in a
successful match of the entry patterns). -/
def groupStr (caps : Caps) (i : Nat) : String :=
  ⟨(capGet caps i).getD []⟩

/-- Record assembly shared by the three pattern branches
(`src/parser.py` 261-291). -/
def finishEntry (text name_raw dates_raw location_raw description_raw entry_html : String) :
    FortEntry :=
  let name_clean := cleanName name_raw
  let (periods, earliest, latest) := parse_date_ranges dates_raw
  let nationalities := if entry_html ≠ "" then extract_nationalities entry_html else []
  let alt_names := extract_alt_names description_raw
  { name_primary := name_clean,
    dates_raw := "(" ++ dates_raw ++ ")",
    location_text := location_raw,
    description_raw := description_raw,
    entry_raw := text,
    alt_names := alt_names,
    nationalities := nationalities,
    periods := periods,
    earliest_year := earliest,
    latest_year := latest }

/-- The `parse_fort_entry` function (`src/parser.py` 197-291). -/
def parse_fort_entry (entry_text : String) (entry_html : String) : Option FortEntry :=
  if pyStripWs entry_text = "" then none
  else
    let text := collapseWs (pyStripWs entry_text)
    match pyMatch entryPat1 text with
    | some caps =>
      some (finishEntry text (pyStripWs (groupStr caps 1)) (pyStripWs (groupStr caps 2))
        (pyStripWs (groupStr caps 3))
        (((capGet caps 4).map (fun l => pyStripWs ⟨l⟩)).getD "") entry_html)
    | none =>
    match pyMatch entryPat2 text with
    | some caps =>
      let rest := pyStripWs (groupStr caps 3)
      let (location_raw, description_raw) := sentSplit rest
      some (finishEntry text (pyStripWs (groupStr caps 1)) (pyStripWs (groupStr caps 2))
        location_raw description_raw entry_html)
    | none =>
    match pyMatch entryPat3 text with
    | some caps =>
      some (finishEntry text (pyStripWs (groupStr caps 1)) (pyStripWs (groupStr caps 2))
        "" (pyStripWs (groupStr caps 3)) entry_html)
    | none =>
      some { name_primary := pyTake 100 text,
             entry_raw := text,
             description_raw := text }

/-! ### Fallback page parsing (`src/parser.py` 401-456)

The fallback strategy flattens the page with BeautifulSoup (an external
library) and scans the flattened text with `entry_pattern`; the claims about
it concern only how each match's four captured groups are turned into a
record, so the matching stage is abstracted as the list of captured group
quadruples `(group1, group2, group3, group4)` and the loop body
(`src/parser.py` 421-454) is embedded exactly. -/

/-- Body of the fallback loop for one regex match (`src/parser.py` 421-454). -/
def fallbackEntry (html : String) (m : String × String × String × String) :
    Option FortEntry :=
  let fort_name := pyStripWs m.1
  let dates_raw := pyStripWs m.2.1
  let location_text := pyStripWs m.2.2.1
  let description := pyStripWs m.2.2.2
  if fort_name = "" then none
  else
    let description_clean := collapseWs description
    let (periods, earliest, latest) := parse_date_ranges dates_raw
    let nationalities :=
      match findSubIdx fort_name.data html.data with
      | some idx =>
        extract_nationalities
          ⟨(html.data.drop (idx - 100)).take ((idx + 100) - (idx - 100))⟩
      | none => []
    some { name_primary := fort_name,
           dates_raw := if dates_raw ≠ "" then "(" ++ dates_raw ++ ")" else "",
           location_text := location_text,
           description_raw := pyTake 1000 description_clean,
           entry_raw := fort_name ++ " (" ++ dates_raw ++ "), " ++ location_text ++
             " - " ++ pyTake 500 description_clean,
           alt_names := [],
           nationalities := nationalities,
           periods := periods,
           earliest_year := earliest,
           latest_year := latest }

/-- The record list built by `parse_page_fallback` from its regex matches
(`src/parser.py` 420-456). -/
def parse_page_fallback_core (html : String)
    (ms : List (String × String × String × String)) : List FortEntry :=
  ms.filterMap (fallbackEntry html)

/-! ### Spec-side definitions used to state the claims -/

/-- Spec reading for C2: the numeric years stored in the periods'
`start_year` and `end_year` fields. -/
def fieldYears (ps : List Period) : List Int :=
  ps.flatMap (fun p => p.start_year.toList ++ p.end_year.toList)

/-- The enumerate indices of the non-empty date segments — what
`period_order` actually records. -/
def nonemptySegIdxs (n : Nat) : List (List Char) → List Nat
  | [] => []
  | p :: rest => (if p = [] then [] else [n]) ++ nonemptySegIdxs (n + 1) rest

/-- First candidate year of a segment the cascade classifies as the
ambiguous `YYYY1/YYYY2` slash form; recorded only in the period note. -/
def slashFirstYear (p : List Char) : List Int :=
  match matchRange p, matchUnknownEnd p, matchSlash p with
  | none, none, some (y1, _) => [y1]
  | _, _, _ => []

/-- The slash-form first candidates over a segment list. -/
def slashFirsts : List (List Char) → List Int
  | [] => []
  | p :: rest => (if p = [] then [] else slashFirstYear p) ++ slashFirsts rest

/-- Spec reading for C8: does any keyword of the eleven rows before the
generic `"fort "` row occur in the case-folded text? -/
def specificTypeHit (text : String) : Bool :=
  type_keywords.dropLast.any (fun tk => tk.2.any (fun kw => containsStr text kw))

/-! ### Helper lemmas -/

/-- Every branch of the classification cascade stamps the enumerate index
into `period_order`. -/
theorem classifyPart_order (i : Nat) (p : List Char) :
    ((classifyPart i p).1).period_order = i := by
  unfold classifyPart
  repeat' split
  all_goals rfl

/-- The period orders of the loop output are exactly the enumerate indices
of the non-empty segments. -/
theorem buildPeriods_orders (n : Nat) (l : List (List Char)) :
    (buildPeriods n l).map Period.period_order = nonemptySegIdxs n l := by
  induction l generalizing n with
  | nil => rfl
  | cons p rest ih =>
    by_cases hp : p = [] <;>
      simp [buildPeriods, nonemptySegIdxs, hp, classifyPart_order, ih]

/-- C1.  For every input date string, `parse_date_ranges` returns the
periods in source left-to-right order, but `period_order` equals each
segment's index in the comma split: the orders are strictly those indices
of non-empty segments, so an empty segment (e.g. a doubled comma) makes its
index skip and the orders are contiguous `0..n-1` only when no empty
segment precedes a returned period. -/
theorem C1_period_order_is_split_index (s : String) :
    ((parse_date_ranges s).1).map Period.period_order =
      nonemptySegIdxs 0 (partsOf s) :=
  buildPeriods_orders 0 (partsOf s)

/-- Combine optional minima of two sublists. -/
def omin : Option Int → Option Int → Option Int
  | none, b => b
  | some a, none => some a
  | some a, some b => some (min a b)

/-- Combine optional maxima of two sublists. -/
def omax : Option Int → Option Int → Option Int
  | none, b => b
  | some a, none => some a
  | some a, some b => some (max a b)

theorem listMin_append (xs ys : List Int) :
    listMin (xs ++ ys) = omin (listMin xs) (listMin ys) := by
  induction xs with
  | nil => cases h : listMin ys <;> simp [listMin, omin, h]
  | cons a xs ih =>
    simp only [List.cons_append, listMin, List.append_eq]
    rw [ih]
    rcases h1 : listMin xs with _ | m1 <;> rcases h2 : listMin ys with _ | m2 <;>
      simp [h1, h2, omin, min_assoc]

theorem listMax_append (xs ys : List Int) :
    listMax (xs ++ ys) = omax (listMax xs) (listMax ys) := by
  induction xs with
  | nil => cases h : listMax ys <;> simp [listMax, omax, h]
  | cons a xs ih =>
    simp only [List.cons_append, listMax, List.append_eq]
    rw [ih]
    rcases h1 : listMax xs with _ | m1 <;> rcases h2 : listMax ys with _ | m2 <;>
      simp [h1, h2, omax, max_assoc]

theorem listMin_eq_none (xs : List Int) : listMin xs = none ↔ xs = [] := by
  cases xs with
  | nil => simp [listMin]
  | cons a as =>
    simp only [listMin]
    cases h : listMin as <;> simp

theorem omin_comm (a b : Option Int) : omin a b = omin b a := by
  rcases a with _ | x <;> rcases b with _ | y <;> simp [omin, min_comm]

theorem omin_assoc (a b c : Option Int) : omin (omin a b) c = omin a (omin b c) := by
  rcases a with _ | x <;> rcases b with _ | y <;> rcases c with _ | z <;>
    simp [omin, min_assoc]

theorem omax_comm (a b : Option Int) : omax a b = omax b a := by
  rcases a with _ | x <;> rcases b with _ | y <;> simp [omax, max_comm]

theorem omax_assoc (a b c : Option Int) : omax (omax a b) c = omax a (omax b c) := by
  rcases a with _ | x <;> rcases b with _ | y <;> rcases c with _ | z <;>
    simp [omax, max_assoc]

/-- Per-segment split of the contributed years: the years a segment adds to
`all_years` are, up to min/max, the years stored in its period's fields plus
(for the slash form only) the first candidate year kept only in the note. -/
theorem classifyPart_years_min (i : Nat) (p : List Char) :
    listMin (classifyPart i p).2 =
      omin (listMin (fieldYears [(classifyPart i p).1])) (listMin (slashFirstYear p)) := by
  unfold classifyPart slashFirstYear
  repeat' split
  all_goals simp_all [fieldYears, listMin, omin, min_comm]

theorem classifyPart_years_max (i : Nat) (p : List Char) :
    listMax (classifyPart i p).2 =
      omax (listMax (fieldYears [(classifyPart i p).1])) (listMax (slashFirstYear p)) := by
  unfold classifyPart slashFirstYear
  repeat' split
  all_goals simp_all [fieldYears, listMax, omax, max_comm]

theorem fieldYears_append (as bs : List Period) :
    fieldYears (as ++ bs) = fieldYears as ++ fieldYears bs := by
  simp [fieldYears]

/-- Glue: the minimum of the loop's `all_years` accumulator equals the
minimum over the output periods' fields together with the slash-note
candidates. -/
theorem buildYears_min (n : Nat) (l : List (List Char)) :
    listMin (buildYears l) =
      omin (listMin (fieldYears (buildPeriods n l))) (listMin (slashFirsts l)) := by
  induction l generalizing n with
  | nil => simp [buildYears, buildPeriods, slashFirsts, fieldYears, listMin, omin]
  | cons p rest ih =>
    by_cases hp : p = []
    · simp [buildYears, buildPeriods, slashFirsts, hp, ih (n + 1)]
    · have hy : (classifyPart 0 p).2 = (classifyPart n p).2 := by
        unfold classifyPart
        repeat' split
        all_goals simp_all
      simp only [buildYears, buildPeriods, slashFirsts, if_neg hp, listMin_append,
        fieldYears_append, hy, ih (n + 1), classifyPart_years_min n p]
      rw [omin_assoc, omin_assoc]
      congr 1
      rw [← omin_assoc, ← omin_assoc, omin_comm (listMin (slashFirstYear p))]

theorem buildYears_max (n : Nat) (l : List (List Char)) :
    listMax (buildYears l) =
      omax (listMax (fieldYears (buildPeriods n l))) (listMax (slashFirsts l)) := by
  induction l generalizing n with
  | nil => simp [buildYears, buildPeriods, slashFirsts, fieldYears, listMax, omax]
  | cons p rest ih =>
    by_cases hp : p = []
    · simp [buildYears, buildPeriods, slashFirsts, hp, ih (n + 1)]
    · have hy : (classifyPart 0 p).2 = (classifyPart n p).2 := by
        unfold classifyPart
        repeat' split
        all_goals simp_all
      simp only [buildYears, buildPeriods, slashFirsts, if_neg hp, listMax_append,
        fieldYears_append, hy, ih (n + 1), classifyPart_years_max n p]
      rw [omax_assoc, omax_assoc]
      congr 1
      rw [← omax_assoc, ← omax_assoc, omax_comm (listMax (slashFirstYear p))]

/-- C2 (amended).  `earliest_year`/`latest_year` are the min/max over the
union of the years stored in the periods' `start_year`/`end_year` fields
*plus*, for each slash-form segment, its first candidate year, which is
recorded only in the period note; they are `null` exactly when that union
is empty. -/
theorem C2_minmax_amended (s : String) :
    (parse_date_ranges s).2.1 =
      listMin (fieldYears (parse_date_ranges s).1 ++ slashFirsts (partsOf s)) ∧
    (parse_date_ranges s).2.2 =
      listMax (fieldYears (parse_date_ranges s).1 ++ slashFirsts (partsOf s)) ∧
    ((parse_date_ranges s).2.1 = none ↔
      fieldYears (parse_date_ranges s).1 ++ slashFirsts (partsOf s) = []) := by
  refine ⟨?_, ?_, ?_⟩
  · simpa [parse_date_ranges, listMin_append] using buildYears_min 0 (partsOf s)
  · simpa [parse_date_ranges, listMax_append] using buildYears_max 0 (partsOf s)
  · rw [show (parse_date_ranges s).2.1 =
        listMin (fieldYears (parse_date_ranges s).1 ++ slashFirsts (partsOf s)) by
          simpa [parse_date_ranges, listMin_append] using buildYears_min 0 (partsOf s)]
    exact listMin_eq_none _

/-- C2 counterexample: for `"1845/1854"` the parser returns
`earliest_year = 1845`, but the minimum over the years stored in the
periods' `start_year`/`end_year` fields is `1854` — the first slash
candidate participates in `earliest_year` without appearing in any field. -/
theorem C2_counterexample :
    (parse_date_ranges "1845/1854").2.1 = some 1845 ∧
    listMin (fieldYears (parse_date_ranges "1845/1854").1) = some 1854 ∧
    (parse_date_ranges "1845/1854").2.1 ≠
      listMin (fieldYears (parse_date_ranges "1845/1854").1) := by decide

/-- A digit character is not equal to any non-digit character. -/
theorem isDigit_beq_false (c x : Char) (h : c.isDigit = true) (hx : x.isDigit = false) :
    (c == x) = false := by
  cases hcx : c == x with
  | false => rfl
  | true =>
    cases eq_of_beq hcx
    rw [h] at hx
    exact Bool.noConfusion hx

theorem isDigit_parenStrip (c : Char) (h : c.isDigit = true) :
    parenStripChar c = false := by
  simp [parenStripChar, isDigit_beq_false c '(' h (by decide),
        isDigit_beq_false c ')' h (by decide), isDigit_beq_false c ' ' h (by decide)]

theorem isDigit_pySpace (c : Char) (h : c.isDigit = true) : pySpace c = false := by
  simp [pySpace, isDigit_beq_false c ' ' h (by decide),
        isDigit_beq_false c '\t' h (by decide), isDigit_beq_false c '\n' h (by decide),
        isDigit_beq_false c '\r' h (by decide), isDigit_beq_false c '\x0b' h (by decide),
        isDigit_beq_false c '\x0c' h (by decide)]

theorem isDigit_comma_false (c : Char) (h : c.isDigit = true) : (c == ',') = false :=
  isDigit_beq_false c ',' h (by decide)

theorem dropWhile_all_false (p : Char → Bool) (l : List Char)
    (h : ∀ c ∈ l, p c = false) : l.dropWhile p = l := by
  cases l with
  | nil => rfl
  | cons a t => rw [List.dropWhile_cons, h a (by simp)]; simp

theorem pyStripL_id (p : Char → Bool) (l : List Char) (h : ∀ c ∈ l, p c = false) :
    pyStripL p l = l := by
  unfold pyStripL
  rw [dropWhile_all_false p l h,
      dropWhile_all_false p l.reverse (by intro c hc; exact h c (List.mem_reverse.mp hc)),
      List.reverse_reverse]

theorem splitComma_no_comma (l : List Char) (h : ∀ c ∈ l, (c == ',') = false) :
    splitComma l = [l] := by
  induction l with
  | nil => rfl
  | cons a t ih =>
    have ht : splitComma t = [t] := ih (fun c hc => h c (by simp [hc]))
    simp only [splitComma, ht, h a (by simp)]
    simp

/-- C5.  A date segment of the ambiguous slash form `YYYY1/YYYY2` yields a
single period with `start_year = null`, `end_year = YYYY2` and a note
recording both candidate years; the parser never selects `YYYY1` as the
start. -/
theorem C5_slash_period (s : String) (d1 d2 d3 d4 e1 e2 e3 e4 : Char)
    (hs : s.data = [d1, d2, d3, d4, '/', e1, e2, e3, e4])
    (hd1 : d1.isDigit = true) (hd2 : d2.isDigit = true) (hd3 : d3.isDigit = true)
    (hd4 : d4.isDigit = true) (he1 : e1.isDigit = true) (he2 : e2.isDigit = true)
    (he3 : e3.isDigit = true) (he4 : e4.isDigit = true) :
    (parse_date_ranges s).1 =
      [{ start_year := none,
         end_year := some (digitVal e1 * 1000 + digitVal e2 * 100 + digitVal e3 * 10 +
           digitVal e4),
         period_notes := some ("Ambiguous: " ++
           toString (digitVal d1 * 1000 + digitVal d2 * 100 + digitVal d3 * 10 +
             digitVal d4) ++ "/" ++
           toString (digitVal e1 * 1000 + digitVal e2 * 100 + digitVal e3 * 10 +
             digitVal e4)),
         period_order := 0 }] := by
  have hstrip : ∀ c ∈ s.data, parenStripChar c = false := by
    rw [hs]
    intro c hc
    simp only [List.mem_cons, List.not_mem_nil, or_false] at hc
    rcases hc with rfl | rfl | rfl | rfl | rfl | rfl | rfl | rfl | rfl
    · exact isDigit_parenStrip _ hd1
    · exact isDigit_parenStrip _ hd2
    · exact isDigit_parenStrip _ hd3
    · exact isDigit_parenStrip _ hd4
    · decide
    · exact isDigit_parenStrip _ he1
    · exact isDigit_parenStrip _ he2
    · exact isDigit_parenStrip _ he3
    · exact isDigit_parenStrip _ he4
  have hspace : ∀ c ∈ s.data, pySpace c = false := by
    rw [hs]
    intro c hc
    simp only [List.mem_cons, List.not_mem_nil, or_false] at hc
    rcases hc with rfl | rfl | rfl | rfl | rfl | rfl | rfl | rfl | rfl
    · exact isDigit_pySpace _ hd1
    · exact isDigit_pySpace _ hd2
    · exact isDigit_pySpace _ hd3
    · exact isDigit_pySpace _ hd4
    · decide
    · exact isDigit_pySpace _ he1
    · exact isDigit_pySpace _ he2
    · exact isDigit_pySpace _ he3
    · exact isDigit_pySpace _ he4
  have hcomma : ∀ c ∈ s.data, (c == ',') = false := by
    rw [hs]
    intro c hc
    simp only [List.mem_cons, List.not_mem_nil, or_false] at hc
    rcases hc with rfl | rfl | rfl | rfl | rfl | rfl | rfl | rfl | rfl
    · exact isDigit_comma_false _ hd1
    · exact isDigit_comma_false _ hd2
    · exact isDigit_comma_false _ hd3
    · exact isDigit_comma_false _ hd4
    · decide
    · exact isDigit_comma_false _ he1
    · exact isDigit_comma_false _ he2
    · exact isDigit_comma_false _ he3
    · exact isDigit_comma_false _ he4
  have hps : partsOf s = [s.data] := by
    unfold partsOf
    rw [pyStripL_id _ _ hstrip, if_neg (by rw [hs]; simp),
        splitComma_no_comma _ hcomma]
    simp [pyStripL_id _ _ hspace]
  have hb : (parse_date_ranges s).1 = [(classifyPart 0 s.data).1] := by
    unfold parse_date_ranges
    rw [hps]
    simp [buildPeriods, show s.data ≠ [] by rw [hs]; simp]
  rw [hb, hs]
  have hslash : pySpace '/' = false := by decide
  have hdash : isDashC '/' = false := by decide
  simp [classifyPart, matchRange, matchUnknownEnd, matchSlash, take4Digits,
        dropSpacesL, List.dropWhile_cons, hd1, hd2, hd3, hd4, he1, he2, he3, he4,
        hslash, hdash]

/-- C5 witness: the theorem applied to the concrete segment `"1845/1854"`;
the note records both candidate years verbatim. -/
theorem C5_witness :
    (parse_date_ranges "1845/1854").1 =
      [{ start_year := none, end_year := some 1854,
         period_notes := some "Ambiguous: 1845/1854", period_order := 0 }] := by
  rw [C5_slash_period "1845/1854" '1' '8' '4' '5' '1' '8' '5' '4' rfl
    (by decide) (by decide) (by decide) (by decide) (by decide) (by decide)
    (by decide) (by decide)]
  decide

/-- A non-empty segment at split index `i` contributes its classified period
to the loop output. -/
theorem buildPeriods_mem (n : Nat) (l : List (List Char)) (i : Nat) (p : List Char)
    (hget : l.get? i = some p) (hne : p ≠ []) :
    (classifyPart (n + i) p).1 ∈ buildPeriods n l := by
  induction l generalizing n i with
  | nil => simp at hget
  | cons q rest ih =>
    cases i with
    | zero =>
      simp only [List.get?_cons_zero, Option.some.injEq] at hget
      subst hget
      simp only [buildPeriods, if_neg hne, Nat.add_zero]
      exact List.mem_append_left _ (by simp)
    | succ j =>
      simp only [List.get?_cons_succ] at hget
      have h2 := ih (n + 1) j hget
      have harith : n + 1 + j = n + (j + 1) := by omega
      rw [harith] at h2
      simp only [buildPeriods]
      exact List.mem_append_right _ h2

/-- A segment matching none of the six classification rules becomes a
note-only period holding the raw text. -/
theorem classifyPart_unmatched (i : Nat) (p : List Char)
    (h1 : matchRange p = none) (h2 : matchUnknownEnd p = none)
    (h3 : matchSlash p = none) (h4 : matchSingle p = none)
    (h5 : matchCirca p = none) (h6 : matchCentury p = none) :
    (classifyPart i p).1 =
      { start_year := none, end_year := none,
        period_notes := some ("Unparsed: " ++ (⟨p⟩ : String)),
        period_order := i } := by
  simp only [classifyPart, h1, h2, h3, h4, h5, h6]

/-- Changing only split segment `i` leaves every other segment's period
unchanged. -/
theorem buildPeriods_sibling (n i : Nat) (l1 l2 : List (List Char))
    (hlen : l1.length = l2.length)
    (hj : ∀ j, j ≠ i → l1.get? j = l2.get? j) :
    (buildPeriods n l1).filter (fun p => p.period_order != n + i) =
      (buildPeriods n l2).filter (fun p => p.period_order != n + i) := by
  induction l1 generalizing l2 n i with
  | nil =>
    cases l2 with
    | nil => rfl
    | cons _ _ => simp at hlen
  | cons q1 rest1 ih =>
    cases l2 with
    | nil => simp at hlen
    | cons q2 rest2 =>
      have hlen' : rest1.length = rest2.length := by simpa using hlen
      simp only [buildPeriods, List.filter_append]
      cases i with
      | zero =>
        have hh1 : ((if q1 = [] then [] else [(classifyPart n q1).1]).filter
            (fun p => p.period_order != n + 0)) = [] := by
          split <;> simp [classifyPart_order]
        have hh2 : ((if q2 = [] then [] else [(classifyPart n q2).1]).filter
            (fun p => p.period_order != n + 0)) = [] := by
          split <;> simp [classifyPart_order]
        rw [hh1, hh2]
        have hrest : rest1 = rest2 := by
          apply List.ext_get?_iff.mpr
          intro j
          have := hj (j + 1) (by omega)
          simpa using this
        rw [hrest]
      | succ k =>
        have hq : q1 = q2 := by
          have := hj 0 (by omega)
          simpa using this
        subst hq
        have ht := ih (n + 1) k rest2 hlen' (fun j hj' => by
          have := hj (j + 1) (by omega)
          simpa using this)
        have harith : n + 1 + k = n + (k + 1) := by omega
        rw [harith] at ht
        rw [ht]

/-- C6.  A date segment matching no classification rule yields a note-only
period recording the unparsed text verbatim; the period is counted and
ordered among the output periods, and replacing that segment (keeping the
others) leaves every sibling period unchanged. -/
theorem C6_unparsed_segment (s : String) (i : Nat) (part : List Char)
    (hget : (partsOf s).get? i = some part) (hne : part ≠ [])
    (h1 : matchRange part = none) (h2 : matchUnknownEnd part = none)
    (h3 : matchSlash part = none) (h4 : matchSingle part = none)
    (h5 : matchCirca part = none) (h6 : matchCentury part = none) :
    ({ start_year := none, end_year := none,
       period_notes := some ("Unparsed: " ++ (⟨part⟩ : String)),
       period_order := i } : Period) ∈ (parse_date_ranges s).1 ∧
    ∀ s2 : String, (partsOf s2).length = (partsOf s).length →
      (∀ j, j ≠ i → (partsOf s2).get? j = (partsOf s).get? j) →
      (parse_date_ranges s2).1.filter (fun p => p.period_order != i) =
        (parse_date_ranges s).1.filter (fun p => p.period_order != i) := by
  constructor
  · have hm := buildPeriods_mem 0 (partsOf s) i part hget hne
    rw [classifyPart_unmatched (0 + i) part h1 h2 h3 h4 h5 h6] at hm
    simpa [parse_date_ranges] using hm
  · intro s2 hlen hj
    have hs := buildPeriods_sibling 0 i (partsOf s2) (partsOf s) hlen hj
    simpa [parse_date_ranges] using hs

/-- C6 witness: `"1775, oops, 1811"` has the unmatched middle segment
`"oops"`; the theorem yields its note-only period at order 1, and replacing
it by `"huh"` leaves the sibling periods untouched. -/
theorem C6_witness :
    ({ start_year := none, end_year := none,
       period_notes := some "Unparsed: oops", period_order := 1 } : Period)
      ∈ (parse_date_ranges "1775, oops, 1811").1 ∧
    (parse_date_ranges "1775, huh, 1811").1.filter (fun p => p.period_order != 1) =
      (parse_date_ranges "1775, oops, 1811").1.filter (fun p => p.period_order != 1) := by
  have h := C6_unparsed_segment "1775, oops, 1811" 1 "oops".data
    (by decide) (by decide) (by decide) (by decide) (by decide) (by decide)
    (by decide) (by decide)
  refine ⟨h.1, h.2 "1775, huh, 1811" (by decide) ?_⟩
  intro j hj
  match j with
  | 0 => rfl
  | 1 => exact absurd rfl hj
  | 2 => rfl
  | n + 3 => rfl

/-- Substituting with a non-empty replacement never empties a non-empty
string. -/
theorem subAllAux_ne_nil (r : Rx) (repl : List Char) (hrepl : repl ≠ []) :
    ∀ (fuel : Nat) (s : List Char), s ≠ [] → subAllAux r repl fuel s ≠ [] := by
  intro fuel
  induction fuel with
  | zero => intro s hs; simpa [subAllAux] using hs
  | succ f ih =>
    intro s hs
    simp only [subAllAux]
    split
    · split
      · intro h
        exact hrepl (List.append_eq_nil.mp h).1
      · exact hs
    · cases s with
      | nil => exact absurd rfl hs
      | cons a t => simp

/-- Whitespace collapsing never empties a non-empty string. -/
theorem collapseWs_ne_empty (s : String) (h : s ≠ "") : collapseWs s ≠ "" := by
  unfold collapseWs subAllStr
  intro hc
  have hdata := congrArg String.data hc
  simp only at hdata
  have hsne : s.data ≠ [] := by
    intro hd
    apply h
    cases s
    simp_all
  exact subAllAux_ne_nil _ _ (by decide) _ _ hsne hdata

/-- C3 (amended).  An entry fragment containing a non-whitespace character
whose whitespace-normalised text matches none of the three segmentation
patterns yields exactly one record: `name_primary` is the non-empty first
100 characters of the *normalised* text, and `entry_raw` and
`description_raw` equal the normalised text (stripped, inner whitespace
runs collapsed to single spaces), all other fields default/empty.  A
fragment that is entirely whitespace yields no record. -/
theorem C3_fallback_amended (entry_text entry_html : String)
    (hne : pyStripWs entry_text ≠ "")
    (h1 : pyMatch entryPat1 (collapseWs (pyStripWs entry_text)) = none)
    (h2 : pyMatch entryPat2 (collapseWs (pyStripWs entry_text)) = none)
    (h3 : pyMatch entryPat3 (collapseWs (pyStripWs entry_text)) = none) :
    parse_fort_entry entry_text entry_html =
      some { name_primary := pyTake 100 (collapseWs (pyStripWs entry_text)),
             dates_raw := "", location_text := "",
             description_raw := collapseWs (pyStripWs entry_text),
             entry_raw := collapseWs (pyStripWs entry_text),
             alt_names := [], nationalities := [], periods := [],
             earliest_year := none, latest_year := none } ∧
    pyTake 100 (collapseWs (pyStripWs entry_text)) ≠ "" := by
  constructor
  · simp only [parse_fort_entry, if_neg hne, h1, h2, h3]
  · have hc := collapseWs_ne_empty _ hne
    intro ht
    apply hc
    have hdata := congrArg String.data ht
    simp only [pyTake] at hdata
    rcases hd : (collapseWs (pyStripWs entry_text)).data with _ | ⟨a, t⟩
    · cases hmk : collapseWs (pyStripWs entry_text)
      simp_all
    · rw [hd] at hdata
      simp at hdata

/-- C3 witness: `"plain text"` matches none of the segmentation patterns;
the fallback record is produced. -/
theorem C3_witness :
    pyStripWs "plain text" ≠ "" ∧
    pyMatch entryPat1 (collapseWs (pyStripWs "plain text")) = none ∧
    parse_fort_entry "plain text" "" =
      some { name_primary := "plain text", description_raw := "plain text",
             entry_raw := "plain text" } := by
  refine ⟨by decide, by decide, ?_⟩
  rw [(C3_fallback_amended "plain text" "" (by decide) (by decide) (by decide)
    (by decide)).1]
  decide

/-- C3 counterexample: the claim's `entry_raw = original input text` fails —
for `"No parens  here"` (doubled space, no pattern matches) the stored
`entry_raw` is the whitespace-normalised `"No parens here"`; and a
whitespace-only fragment yields no record at all rather than exactly one. -/
theorem C3_counterexample :
    (parse_fort_entry "No parens  here" "").map FortEntry.entry_raw =
      some "No parens here" ∧
    some "No parens here" ≠ some "No parens  here" ∧
    parse_fort_entry "   " "" = none := by decide

/-- C7.  The spec's four-field example segments exactly as claimed:
name `"Fort X"`, dates `"(1812)"`, location `"Near Boston"`, description
`"A small post."`. -/
theorem C7_four_field_segmentation :
    parse_fort_entry "Fort X (1812), Near Boston - A small post." "" =
      some { name_primary := "Fort X", dates_raw := "(1812)",
             location_text := "Near Boston", description_raw := "A small post.",
             entry_raw := "Fort X (1812), Near Boston - A small post.",
             alt_names := [], nationalities := [],
             periods := [{ start_year := some 1812, end_year := none,
                           period_notes := none, period_order := 0 }],
             earliest_year := some 1812, latest_year := some 1812 } := by decide

/-- One alt-name loop step never removes an accumulated name. -/
theorem altNameStep_extends (acc : List String) (caps : Caps) (name : String)
    (h : name ∈ acc) : name ∈ altNameStep acc caps := by
  unfold altNameStep
  rcases hc : capGet caps 1 with _ | chars <;> simp only [hc]
  · exact h
  · by_cases hcond : pyStripWs ⟨chars⟩ ≠ "" ∧ pyStripWs ⟨chars⟩ ∉ acc ∧
        stopwordHit (pyStripWs ⟨chars⟩) = false
    · rw [if_pos hcond]
      exact List.mem_append_left _ h
    · rw [if_neg hcond]
      exact h

/-- Names survive the rest of the alt-name fold. -/
theorem foldl_altNameStep_mono (l : List Caps) (acc : List String) (name : String)
    (h : name ∈ acc) : name ∈ l.foldl altNameStep acc := by
  induction l generalizing acc with
  | nil => exact h
  | cons c t ih => exact ih _ (altNameStep_extends _ _ _ h)

/-- Soundness of the alt-name fold: every name in the result was already in
the accumulator or is the stripped group-1 capture of one of the processed
matches, non-empty and free of stopword substrings. -/
theorem foldl_altNameStep_sound (l : List Caps) (acc : List String) (name : String)
    (h : name ∈ l.foldl altNameStep acc) :
    name ∈ acc ∨
      (stopwordHit name = false ∧ name ≠ "" ∧
        ∃ caps ∈ l, ∃ chars, capGet caps 1 = some chars ∧
          name = pyStripWs ⟨chars⟩) := by
  induction l generalizing acc with
  | nil => exact Or.inl h
  | cons c t ih =>
    rcases ih (altNameStep acc c) h with hacc | hnew
    · unfold altNameStep at hacc
      rcases hc : capGet c 1 with _ | chars
      · simp only [hc] at hacc
        exact Or.inl hacc
      · simp only [hc] at hacc
        by_cases hcond : pyStripWs ⟨chars⟩ ≠ "" ∧ pyStripWs ⟨chars⟩ ∉ acc ∧
            stopwordHit (pyStripWs ⟨chars⟩) = false
        · rw [if_pos hcond] at hacc
          rcases List.mem_append.mp hacc with h1 | h2
          · exact Or.inl h1
          · rw [List.mem_singleton] at h2
            subst h2
            exact Or.inr ⟨hcond.2.2, hcond.1, c, by simp, chars, hc, rfl⟩
        · rw [if_neg hcond] at hacc
          exact Or.inl hacc
    · obtain ⟨hsw, hne, caps, hcaps, chars, h1, h2⟩ := hnew
      exact Or.inr ⟨hsw, hne, caps, List.mem_cons_of_mem _ hcaps, chars, h1, h2⟩

/-- Completeness of the alt-name fold: a candidate captured by one of the
processed matches that is non-empty and free of stopword substrings always
ends up in the result. -/
theorem foldl_altNameStep_complete (l : List Caps) (acc : List String)
    (caps : Caps) (chars : List Char) (name : String)
    (hcl : caps ∈ l) (hchars : capGet caps 1 = some chars)
    (hname : name = pyStripWs ⟨chars⟩) (hne : name ≠ "")
    (hsw : stopwordHit name = false) :
    name ∈ l.foldl altNameStep acc := by
  induction l generalizing acc with
  | nil => simp at hcl
  | cons c t ih =>
    rcases List.mem_cons.mp hcl with rfl | hmem
    · rw [List.foldl_cons]
      apply foldl_altNameStep_mono
      unfold altNameStep
      simp only [hchars]
      subst hname
      by_cases hin : pyStripWs ⟨chars⟩ ∈ acc
      · rw [if_neg (by simp [hin])]
        exact hin
      · rw [if_pos ⟨hne, hin, hsw⟩]
        exact List.mem_append_right _ (by simp)
    · rw [List.foldl_cons]
      exact ih _ hmem

/-- C4 (amended).  The plain-text extractor applies only the two
phrase-anchored patterns: the bare-emphasis fallback pattern is defined but
never applied (the loop iterates `patterns[:-1]`), so every extracted name
is the stripped group-1 capture of a *phrase-anchored* match — an
emphasised span matching no phrase-anchored pattern is never extracted —
and among those candidates it rejects exactly the ones that are empty or
whose lower-cased text *contains* one of the substrings `"the "`, `"a "`,
`"an "`, `"this "`, `"that "` (a containment test, not a begins-with
test). -/
theorem C4_phrase_only_amended (d name : String) :
    (name ∈ extract_alt_names d →
      stopwordHit name = false ∧ name ≠ "" ∧
      ∃ caps ∈ findAll altPhraseRx1 d.data ++ findAll altPhraseRx2 d.data,
        ∃ chars, capGet caps 1 = some chars ∧ name = pyStripWs ⟨chars⟩) ∧
    (∀ caps ∈ findAll altPhraseRx1 d.data ++ findAll altPhraseRx2 d.data,
      ∀ chars, capGet caps 1 = some chars → name = pyStripWs ⟨chars⟩ →
      name ≠ "" → stopwordHit name = false → name ∈ extract_alt_names d) := by
  constructor
  · intro h
    rcases foldl_altNameStep_sound _ [] name h with habs | hok
    · simp at habs
    · exact hok
  · intro caps hcl chars hchars hname hne hsw
    exact foldl_altNameStep_complete _ [] caps chars name hcl hchars hname hne hsw

/-- C4 witness: the amended theorem applied to
`"also known as **Fort George**"`, whose single phrase-anchored match
captures `"Fort George"`; the completeness direction puts it in the output
and the soundness direction certifies it is stopword-free. -/
theorem C4_witness :
    "Fort George" ∈ extract_alt_names "also known as **Fort George**" ∧
    stopwordHit "Fort George" = false := by
  constructor
  · exact (C4_phrase_only_amended "also known as **Fort George**" "Fort George").2
      [(1, "Fort George".data)] (by decide) "Fort George".data (by decide) (by decide)
      (by decide) (by decide)
  · exact ((C4_phrase_only_amended "also known as **Fort George**" "Fort George").1
      (by decide)).1

/-- C4 counterexample: `"**Fort Awesome**"` is an emphasised span matching
no phrase-anchored pattern and starting with no stopword, yet nothing is
extracted — the bare-emphasis fallback is dead code; and `"Santa Fe"`
begins with no stopword yet is rejected, because the filter tests substring
containment of `"a "`, not a stopword prefix. -/
theorem C4_counterexample :
    extract_alt_names "**Fort Awesome**" = [] ∧
    ([] : List String) ≠ ["Fort Awesome"] ∧
    extract_alt_names "known as **Santa Fe**" = [] ∧
    ([] : List String) ≠ ["Santa Fe"] := by decide

theorem findSome?_ite_none_iff {α β : Type} (g : α → Bool) (h : α → β) (l : List α) :
    l.findSome? (fun a => if g a then some (h a) else none) = none ↔ l.any g = false := by
  induction l with
  | nil => simp
  | cons a t ih => by_cases hg : g a <;> simp [List.findSome?_cons, hg, ih]

theorem findSome?_ite_some {α β : Type} (g : α → Bool) (h : α → β) (l : List α)
    (b : β) (hf : l.findSome? (fun a => if g a then some (h a) else none) = some b) :
    ∃ a ∈ l, g a = true ∧ h a = b := by
  induction l with
  | nil => simp at hf
  | cons a t ih =>
    by_cases hg : g a
    · simp only [List.findSome?_cons, hg, if_true, Option.some.injEq] at hf
      exact ⟨a, by simp, hg, hf⟩
    · simp only [List.findSome?_cons, hg, if_false] at hf
      obtain ⟨a', ha', hg', hb'⟩ := ih hf
      exact ⟨a', by simp [ha'], hg', hb'⟩

theorem findSome?_append_none {α β : Type} (f : α → Option β) (l1 l2 : List α)
    (h : l1.findSome? f = none) : (l1 ++ l2).findSome? f = l2.findSome? f := by
  induction l1 with
  | nil => simp
  | cons a t ih =>
    simp only [List.cons_append, List.findSome?_cons] at h ⊢
    rcases hfa : f a with _ | b
    · simp only [hfa] at h ⊢
      exact ih h
    · simp [hfa] at h

theorem findSome?_append_some {α β : Type} (f : α → Option β) (l1 l2 : List α) (b : β)
    (h : l1.findSome? f = some b) : (l1 ++ l2).findSome? f = some b := by
  induction l1 with
  | nil => simp at h
  | cons a t ih =>
    simp only [List.cons_append, List.findSome?_cons] at h ⊢
    rcases hfa : f a with _ | c
    · simp only [hfa] at h ⊢
      exact ih h
    · simp only [hfa] at h ⊢
      exact h

/-- C8.  Fort-type classification is total and deterministic: the result is
always one of the twelve table labels; the first row (`battery`) wins
whenever its keyword occurs; the ordered table is evaluated
first-match-wins (the row whose keywords hit while all earlier rows miss
supplies the label); and the result is the generic `"fort"` exactly when no
keyword of the eleven specific rows occurs in the case-folded combined text
(so a text containing both a specific keyword and the generic `"fort "`
token gets the specific label, and the default is `"fort"` when nothing
matches). -/
theorem C8_type_classification (name description : String) :
    detect_fort_type name description ∈ type_keywords.map Prod.fst ∧
    (containsStr (pyLower (name ++ " " ++ description)) "battery" = true →
      detect_fort_type name description = "battery") ∧
    (∀ l1 a l2, type_keywords = l1 ++ a :: l2 →
      (a.2.any fun kw => containsStr (pyLower (name ++ " " ++ description)) kw) = true →
      (∀ b ∈ l1, (b.2.any fun kw =>
        containsStr (pyLower (name ++ " " ++ description)) kw) = false) →
      detect_fort_type name description = a.1) ∧
    (detect_fort_type name description = "fort" ↔
      specificTypeHit (pyLower (name ++ " " ++ description)) = false) := by
  refine ⟨?_, ?_, ?_, ?_⟩
  · unfold detect_fort_type
    rcases hf : type_keywords.findSome?
        (fun tk => if tk.2.any (fun kw =>
          containsStr (pyLower (name ++ " " ++ description)) kw) then some tk.1
          else none) with _ | lbl
    · simp only [hf]
      decide
    · simp only [hf]
      obtain ⟨a, ha, _, hb⟩ := findSome?_ite_some _ _ _ _ hf
      exact hb ▸ List.mem_map_of_mem Prod.fst ha
  · intro h
    simp only [detect_fort_type, type_keywords, List.findSome?_cons, List.any_cons, h,
      Bool.true_or, if_true]
  · intro l1 a l2 hsp hhit2 hnone2
    have hl1 : l1.findSome?
        (fun tk : String × List String => if tk.2.any (fun kw =>
          containsStr (pyLower (name ++ " " ++ description)) kw) then some tk.1
          else none) = none := by
      apply (findSome?_ite_none_iff
        (fun tk : String × List String => tk.2.any (fun kw =>
          containsStr (pyLower (name ++ " " ++ description)) kw)) Prod.fst l1).mpr
      rw [List.any_eq_false]
      intro b hb
      simp [hnone2 b hb]
    simp only [detect_fort_type]
    rw [hsp, findSome?_append_none _ _ _ hl1]
    simp only [List.findSome?_cons, hhit2]
    simp
  · have hsplit : type_keywords = type_keywords.dropLast ++ [("fort", ["fort "])] := by
      decide
    simp only [detect_fort_type, specificTypeHit]
    rcases hf : type_keywords.dropLast.findSome?
        (fun tk : String × List String => if tk.2.any (fun kw =>
          containsStr (pyLower (name ++ " " ++ description)) kw) then some tk.1
          else none) with _ | lbl
    · have hhit := (findSome?_ite_none_iff
        (fun tk : String × List String => tk.2.any (fun kw =>
          containsStr (pyLower (name ++ " " ++ description)) kw)) Prod.fst _).mp hf
      have hrw : type_keywords.findSome?
          (fun tk : String × List String => if tk.2.any (fun kw =>
            containsStr (pyLower (name ++ " " ++ description)) kw) then some tk.1
            else none) =
          [("fort", ["fort "])].findSome?
          (fun tk : String × List String => if tk.2.any (fun kw =>
            containsStr (pyLower (name ++ " " ++ description)) kw) then some tk.1
            else none) := by
        conv_lhs => rw [hsplit]
        exact findSome?_append_none _ _ _ hf
      rw [hrw, hhit]
      by_cases hc : containsStr (pyLower (name ++ " " ++ description)) "fort " = true <;>
        simp [List.findSome?_cons, List.findSome?_nil, hc]
    · obtain ⟨a, ha, hg, hb⟩ := findSome?_ite_some _ _ _ _ hf
      have hne : lbl ≠ "fort" := by
        rw [← hb]
        fin_cases ha <;> decide
      have hhit : type_keywords.dropLast.any (fun tk : String × List String =>
          tk.2.any (fun kw =>
            containsStr (pyLower (name ++ " " ++ description)) kw)) = true :=
        List.any_eq_true.mpr ⟨a, ha, hg⟩
      have hrw : type_keywords.findSome?
          (fun tk : String × List String => if tk.2.any (fun kw =>
            containsStr (pyLower (name ++ " " ++ description)) kw) then some tk.1
            else none) = some lbl := by
        conv_lhs => rw [hsplit]
        exact findSome?_append_some _ _ _ _ hf
      rw [hrw, hhit]
      simp [hne]

/-- C8 witness: the theorem applied to a name containing `"battery"`. -/
theorem C8_witness :
    containsStr (pyLower ("Old Battery" ++ " " ++ "")) "battery" = true ∧
    detect_fort_type "Old Battery" "" = "battery" :=
  ⟨by decide, (C8_type_classification "Old Battery" "").2.1 (by decide)⟩

/-- Every nation the vocabulary can return is one of its ten values. -/
theorem FLAG_NATIONALITY_mem (f n : String) (h : FLAG_NATIONALITY f = some n) :
    n ∈ nationalityValues := by
  unfold FLAG_NATIONALITY at h
  repeat' split at h
  all_goals simp_all [nationalityValues]

/-- One nationality-loop step keeps the accumulator duplicate-free and
vocabulary-valued. -/
theorem natStep_inv (acc : List String) (caps : Caps)
    (hnd : acc.Nodup) (hv : ∀ y ∈ acc, y ∈ nationalityValues) :
    (natStep acc caps).Nodup ∧ ∀ y ∈ natStep acc caps, y ∈ nationalityValues := by
  unfold natStep
  rcases hc : capGet caps 1 with _ | chars <;> simp only [hc]
  · exact ⟨hnd, hv⟩
  · rcases hn : FLAG_NATIONALITY (pyLower ⟨chars⟩) with _ | nat <;> simp only [hn]
    · exact ⟨hnd, hv⟩
    · by_cases hm : nat ∈ acc
      · simp only [if_pos hm]
        exact ⟨hnd, hv⟩
      · simp only [if_neg hm]
        refine ⟨?_, ?_⟩
        · simp [List.nodup_append, hnd, hm]
        · intro y hy
          rcases List.mem_append.mp hy with hy1 | hy2
          · exact hv y hy1
          · rw [List.mem_singleton.mp hy2]
            exact FLAG_NATIONALITY_mem _ _ hn

theorem foldl_natStep_inv (l : List Caps) (acc : List String)
    (hnd : acc.Nodup) (hv : ∀ y ∈ acc, y ∈ nationalityValues) :
    (l.foldl natStep acc).Nodup ∧ ∀ y ∈ l.foldl natStep acc, y ∈ nationalityValues := by
  induction l generalizing acc with
  | nil => exact ⟨hnd, hv⟩
  | cons c t ih =>
    have h := natStep_inv acc c hnd hv
    exact ih _ h.1 h.2

/-- C9.  `extract_nationalities` always returns an order-preserving,
de-duplicated list of labels from the fixed flag vocabulary (unknown flag
tokens are silently ignored); in particular the token sequence
`british, usa, british` yields `[Great Britain, United States]`. -/
theorem C9_nationalities (s x : String) :
    (extract_nationalities s).Nodup ∧
    (x ∈ extract_nationalities s → x ∈ nationalityValues) ∧
    extract_nationalities "britishflag.gif usaflag.gif britishflag.gif" =
      ["Great Britain", "United States"] := by
  have h := foldl_natStep_inv (findAll flagRx s.data) [] (by simp) (by simp)
  exact ⟨h.1, fun hx => h.2 x hx, by decide⟩

/-- C9 witness: the theorem applied to one British flag token. -/
theorem C9_witness :
    "Great Britain" ∈ extract_nationalities "britishflag.gif" ∧
    "Great Britain" ∈ nationalityValues :=
  ⟨by decide, (C9_nationalities "britishflag.gif" "Great Britain").2.1 (by decide)⟩

/-- C10.  Every record produced by the fallback strategy's loop body has an
empty `alt_names`, a `description_raw` truncated to at most 1000 characters
of the cleaned description, and an `entry_raw` rebuilt from only the first
500 characters of the cleaned description — so for long entries `entry_raw`
summarises rather than equals the source text. -/
theorem C10_fallback_truncation (html : String)
    (ms : List (String × String × String × String)) (e : FortEntry)
    (he : e ∈ parse_page_fallback_core html ms) :
    e.alt_names = [] ∧ e.description_raw.length ≤ 1000 ∧
    ∃ m ∈ ms,
      e.description_raw = pyTake 1000 (collapseWs (pyStripWs m.2.2.2)) ∧
      e.entry_raw = pyStripWs m.1 ++ " (" ++ pyStripWs m.2.1 ++ "), " ++
        pyStripWs m.2.2.1 ++ " - " ++ pyTake 500 (collapseWs (pyStripWs m.2.2.2)) := by
  obtain ⟨m, hm, hfe⟩ := List.mem_filterMap.mp he
  by_cases hfn : pyStripWs m.1 = ""
  · simp [fallbackEntry, hfn] at hfe
  · simp only [fallbackEntry, if_neg hfn, Option.some.injEq] at hfe
    subst hfe
    refine ⟨rfl, ?_, m, hm, rfl, rfl⟩
    simp only [pyTake, String.length]
    calc ((collapseWs (pyStripWs m.2.2.2)).data.take 1000).length
        ≤ 1000 := by rw [List.length_take]; exact min_le_left _ _

/-- The record the fallback builder produces from the sample match
`("Fort A", "1800", "Somewhere", "Desc")` against an empty page. -/
def sampleFallbackRecord : FortEntry :=
  { name_primary := "Fort A", dates_raw := "(1800)", location_text := "Somewhere",
    description_raw := "Desc", entry_raw := "Fort A (1800), Somewhere - Desc",
    alt_names := [], nationalities := [],
    periods := [{ start_year := some 1800, end_year := none, period_notes := none,
                  period_order := 0 }],
    earliest_year := some 1800, latest_year := some 1800 }

/-- C10 witness: the theorem applied to a concrete fallback match. -/
theorem C10_witness :
    sampleFallbackRecord ∈
      parse_page_fallback_core "" [("Fort A", "1800", "Somewhere", "Desc")] ∧
    sampleFallbackRecord.alt_names = [] ∧
    sampleFallbackRecord.description_raw.length ≤ 1000 ∧
    ∃ m ∈ [("Fort A", "1800", "Somewhere", "Desc")],
      sampleFallbackRecord.description_raw = pyTake 1000 (collapseWs (pyStripWs m.2.2.2)) ∧
      sampleFallbackRecord.entry_raw = pyStripWs m.1 ++ " (" ++ pyStripWs m.2.1 ++ "), " ++
        pyStripWs m.2.2.1 ++ " - " ++ pyTake 500 (collapseWs (pyStripWs m.2.2.2)) := by
  refine ⟨by decide, ?_⟩
  exact C10_fallback_truncation "" [("Fort A", "1800", "Somewhere", "Desc")]
    sampleFallbackRecord (by decide)

/-- C1 counterexample: `"1775,,1811"` comma-splits into three segments with
the middle one empty; two periods are returned but their `period_order`
values are `[0, 2]`, not the contiguous `0..n-1 = [0, 1]` the claim
requires. -/
theorem C1_counterexample :
    (parse_date_ranges "1775,,1811").1.length = 2 ∧
    (parse_date_ranges "1775,,1811").1.map Period.period_order ≠
      List.range (parse_date_ranges "1775,,1811").1.length := by decide

end FortsScraper
